import Mathlib

/-!
Verification of the future-based task-completion synchronization engine in
`src/wemd/work_managers/__init__.py` (classes `WMFuture`, `FutureWatcher`,
`WEMDWorkManager`).

Shallow embedding conventions:
* Python's dynamically typed result and exception payloads are modelled as
  `Nat` (`Value`, `Exc`); the initial `None` stored in `_result` and
  `_exception` is modelled with `Option` (`none` = Python `None`).
* Callbacks are identified by `Nat` ids; an environment `beh : Nat → Bool`
  says whether invoking a callback raises an exception (`true` = raises).
* Watchers are identified by `Nat` ids; signalling a watcher is recorded in a
  trace rather than mutating a shared object, and `FutureWatcher` itself is
  modelled separately with its `signal`/`reset` transitions.
* Blocking operations (`get_result` on a pending future, `watcher.wait` with
  no completions left) return `none` / a `blocked` outcome.
* The instance attribute `_returned`, which `get_exception` reads but which
  no method ever assigns, is modelled as an `Option Bool` field that starts
  out `none` (= unassigned; reading it raises `AttributeError`).
-/

namespace WemdWM

/-- Task result payloads (Python objects; modelled as naturals). -/
abbrev Value := Nat

/-- Exception payloads (Python exception objects; modelled as naturals).
Genuine exception objects are truthy in Python, so `if self._exception:`
distinguishes exactly `None` (`none`) from a stored exception (`some e`). -/
abbrev Exc := Nat

/-- State of a `WMFuture` instance: the fields assigned by `__init__` plus
the never-assigned `_returned` attribute read by `get_exception`.
`watchers` models the set `self._watchers` (insertion order stands in for the
unspecified set-iteration order); `callbacks` models the list
`self._update_callbacks` in registration order. -/
structure WMFuture where
  task_id : Nat
  done : Bool
  result : Option Value
  exception : Option Exc
  watchers : List Nat
  callbacks : List Nat
  returned : Option Bool
  deriving Repr, DecidableEq

/-- `WMFuture.__init__`: fresh pending future. `_returned` is never assigned,
so it starts (and stays) unassigned. -/
def initFuture (tid : Nat) : WMFuture :=
  { task_id := tid, done := false, result := none, exception := none,
    watchers := [], callbacks := [], returned := none }

/-- Observable effects of completing a future: which callbacks were invoked
(in order), which callback exceptions were caught and logged, and which
watchers were signalled (in order), by `_invoke_callbacks` /
`_notify_watchers`. -/
structure CompletionTrace where
  invoked : List Nat
  logged : List Nat
  signaled : List Nat
  deriving Repr, DecidableEq

/-- The loop body of `WMFuture._invoke_callbacks`: each callback is called
inside `try: callback(self) except Exception: log.exception(...)`, so a
raising callback (`beh c = true`) is logged and the loop continues with the
next callback.  Returns (callbacks invoked in order, callbacks logged). -/
def runCallbacks (beh : Nat → Bool) : List Nat → List Nat × List Nat
  | [] => ([], [])
  | c :: cs =>
    let rest := runCallbacks beh cs
    (c :: rest.1, (if beh c then [c] else []) ++ rest.2)

/-- `WMFuture._invoke_callbacks`: run every registered callback under the
future's condition, then clear the callback list. -/
def invoke_callbacks (beh : Nat → Bool) (s : WMFuture) :
    WMFuture × List Nat × List Nat :=
  ({ s with callbacks := [] }, runCallbacks beh s.callbacks)

/-- `WMFuture._notify_watchers`: signal every watcher in the watcher set,
then clear the set (the `assert self._done` holds on every call site). -/
def notify_watchers (s : WMFuture) : WMFuture × List Nat :=
  ({ s with watchers := [] }, s.watchers)

/-- `WMFuture._set_result`: under the condition, store the result, mark done,
`notify_all` the condition, invoke callbacks, notify watchers.  There is no
check that the future is still pending: the code performs these steps
unconditionally and returns normally even on an already-done future. -/
def set_result (beh : Nat → Bool) (v : Value) (s : WMFuture) :
    WMFuture × CompletionTrace :=
  let s1 : WMFuture := { s with result := some v, done := true }
  let (s2, inv, lg) := invoke_callbacks beh s1
  let (s3, sig) := notify_watchers s2
  (s3, { invoked := inv, logged := lg, signaled := sig })

/-- `WMFuture._set_exception`: symmetric to `_set_result`, storing an
exception payload; again no already-done check. -/
def set_exception (beh : Nat → Bool) (e : Exc) (s : WMFuture) :
    WMFuture × CompletionTrace :=
  let s1 : WMFuture := { s with exception := some e, done := true }
  let (s2, inv, lg) := invoke_callbacks beh s1
  let (s3, sig) := notify_watchers s2
  (s3, { invoked := inv, logged := lg, signaled := sig })

/-- `WMFuture.get_result`: if done, raise the stored exception if one is set,
else return the stored `_result` object; if pending, wait on the condition
(modelled as `none` = the call blocks) and resolve the same way once woken
by a completion.  `.error e` models `raise self._exception`; `.ok r` models
`return self._result` (with `r` the stored `Option`-wrapped object). -/
def get_result (s : WMFuture) : Option (Except Exc (Option Value)) :=
  if s.done then
    match s.exception with
    | some e => some (Except.error e)
    | none => some (Except.ok s.result)
  else
    none

/-- `WMFuture._add_watcher`: if a result is available, signal the watcher
immediately and return without updating the watcher set; otherwise add it to
the set.  Returns (new state, watchers signalled synchronously). -/
def add_watcher (w : Nat) (s : WMFuture) : WMFuture × List Nat :=
  if s.done then (s, [w])
  else ({ s with watchers := s.watchers ++ [w] }, [])

/-- `WMFuture._add_callback`: if a result is available, invoke the callback
immediately — inside `try ... except Exception: log.exception(...)` — without
updating the callback list; otherwise append it to the list.  Returns
(new state, callbacks invoked now, callbacks logged now); the function always
returns normally. -/
def add_callback (beh : Nat → Bool) (c : Nat) (s : WMFuture) :
    WMFuture × List Nat × List Nat :=
  if s.done then (s, [c], if beh c then [c] else [])
  else ({ s with callbacks := s.callbacks ++ [c] }, [], [])

/-- `WMFuture.is_done`: non-blocking snapshot of `_done` under the guard. -/
def is_done (s : WMFuture) : Bool := s.done

/-- Outcome of `WMFuture.get_exception`. -/
inductive GetExcOutcome where
  | attributeError
  | blocked
  | assertionFailed
  | returned (e : Option Exc)
  deriving Repr, DecidableEq

/-- `WMFuture.get_exception`: reads `self._returned` first.  If the attribute
was never assigned, the read raises `AttributeError`.  Were it assigned and
truthy, the stored exception would be returned; were it assigned and falsy,
the code asserts `self._done` (failing if pending) and then waits on the
condition of an already-done future (blocking). -/
def get_exception (s : WMFuture) : GetExcOutcome :=
  match s.returned with
  | none => GetExcOutcome.attributeError
  | some b =>
    if b then GetExcOutcome.returned s.exception
    else if s.done then GetExcOutcome.blocked
    else GetExcOutcome.assertionFailed

/-- The public operations of a future's lifecycle, for quantifying over
arbitrary operation sequences. -/
inductive FOp where
  | setResult (v : Value)
  | setException (e : Exc)
  | getResult
  | addWatcher (w : Nat)
  | addCallback (c : Nat)
  | isDone
  deriving Repr, DecidableEq

/-- State transition of one lifecycle operation (readers leave the state
unchanged). -/
def fstep (beh : Nat → Bool) (s : WMFuture) : FOp → WMFuture
  | FOp.setResult v => (set_result beh v s).1
  | FOp.setException e => (set_exception beh e s).1
  | FOp.getResult => s
  | FOp.addWatcher w => (add_watcher w s).1
  | FOp.addCallback c => (add_callback beh c s).1
  | FOp.isDone => s

/-- Run a sequence of lifecycle operations from a state. -/
def frun (beh : Nat → Bool) (s : WMFuture) (ops : List FOp) : WMFuture :=
  ops.foldl (fstep beh) s

/-- State of a `FutureWatcher`: the `threading.Event` (`eventSet`), the
signal threshold, and the list of completed futures (by id) appended since
the last reset.  The target futures are registered at construction via
`future._add_watcher(self)`, which for an already-done future synchronously
calls `signal` — i.e. construction is `winit` followed by one `signal` per
already-done target. -/
structure FutureWatcher where
  eventSet : Bool
  threshold : Nat
  completed : List Nat
  deriving Repr, DecidableEq

/-- `FutureWatcher.__init__` before the registration loop: event cleared,
empty completed list. -/
def winit (t : Nat) : FutureWatcher :=
  { eventSet := false, threshold := t, completed := [] }

/-- `FutureWatcher.signal`: under the watcher's lock, append the future to
the completed list; if this brings the count to at least the threshold, set
the event (`Event.set` on an already-set event leaves it set). -/
def FutureWatcher.signal (w : FutureWatcher) (fid : Nat) : FutureWatcher :=
  let completed := w.completed ++ [fid]
  { w with
    completed := completed
    eventSet := if w.threshold ≤ completed.length then true else w.eventSet }

/-- `FutureWatcher.reset`: clear the event, return the completed list and
replace it with an empty one.  Returns (previous completed list, new
state). -/
def FutureWatcher.reset (w : FutureWatcher) : List Nat × FutureWatcher :=
  (w.completed, { w with eventSet := false, completed := [] })

/-- `FutureWatcher.wait`: blocks until the event is set; returns whether the
call proceeds without blocking. -/
def FutureWatcher.wait (w : FutureWatcher) : Bool := w.eventSet

/-- The operations applied to a live watcher: `signal fid` by a completing
(or already-done) future, and `reset` by its consumer. -/
inductive WOp where
  | signal (fid : Nat)
  | reset
  deriving Repr, DecidableEq

/-- One watcher transition. -/
def wstep (w : FutureWatcher) : WOp → FutureWatcher
  | WOp.signal fid => w.signal fid
  | WOp.reset => (w.reset).2

/-- Run a sequence of watcher operations. -/
def wrun (w : FutureWatcher) (ops : List WOp) : FutureWatcher :=
  ops.foldl wstep w

/-- `WMFuture.all_acquired`, a `@contextlib.contextmanager` generator, as it
interacts with a `with` block.  `held` counts, per future id, how many times
this thread holds the future's condition lock; `body` is the outcome of the
protected block.  The generator first acquires every listed future's
condition.  On normal exit of the block, the generator resumes after the
`yield` and runs the release loop.  If the block raises, the contextmanager
protocol throws the exception into the generator at the `yield`; the
generator body has no `try/finally`, so the exception propagates out of the
generator immediately and the release loop after the `yield` never runs. -/
def all_acquired (fids : List Nat) (held : Nat → Nat) (body : Except Exc Unit) :
    Except Exc Unit × (Nat → Nat) :=
  let acquired := fids.foldl
    (fun h fid => fun x => if x = fid then h x + 1 else h x) held
  match body with
  | Except.ok () =>
    let released := fids.foldl
      (fun h fid => fun x => if x = fid then h x - 1 else h x) acquired
    (Except.ok (), released)
  | Except.error e => (Except.error e, acquired)

/-- The drain loop of `WEMDWorkManager.as_completed` (`while pending: ...`).
`sched` models the concurrency schedule: the successive batches returned by
`watcher.reset()` after each `watcher.wait()` — i.e. the sets of pending
futures whose completions signalled the threshold-1 watcher between
consecutive resets.  Each batch is yielded in order and removed from
`pending`.  If the schedule is exhausted while futures remain pending the
loop blocks in `watcher.wait()` forever (`none`). -/
def acLoop : List Nat → List (List Nat) → Option (List Nat)
  | pending, [] => if pending.isEmpty then some [] else none
  | pending, b :: rest =>
    if pending.isEmpty then some []
    else (acLoop (pending.filter (fun x => !b.contains x)) rest).map
      (fun out => b ++ out)

/-- `WEMDWorkManager.as_completed`: under one `all_acquired` scope, partition
the (de-duplicated) futures `S` into already-done and pending; install a
threshold-1 watcher on the pending ones; yield the already-done futures
first, then drain the watcher until nothing is pending.  `doneInit` is the
atomic snapshot of which futures are done at call time; `sched` is the
completion schedule of the pending ones.  Returns the yielded sequence, or
`none` if the generator blocks forever. -/
def as_completed (S : List Nat) (doneInit : Nat → Bool)
    (sched : List (List Nat)) : Option (List Nat) :=
  let completed := S.filter doneInit
  let pending := S.filter (fun x => !doneInit x)
  (acLoop pending sched).map (fun out => completed ++ out)

/-- `WEMDWorkManager.wait_all`: `results.append(future.result)` for each
future in the supplied order; each `future.result` is a blocking
`get_result`.  A pending future blocks the whole call (`none`); a stored
failure raises out of the loop (`some (.error e)`); otherwise the stored
result objects are returned in input order. -/
def wait_all : List WMFuture → Option (Except Exc (List (Option Value)))
  | [] => some (Except.ok [])
  | f :: fs =>
    match get_result f with
    | none => none
    | some (Except.error e) => some (Except.error e)
    | some (Except.ok v) =>
      match wait_all fs with
      | none => none
      | some (Except.error e) => some (Except.error e)
      | some (Except.ok vs) => some (Except.ok (v :: vs))

/-- Invariant relating a watcher's event to its completed count (spec
invariant I4), together with constancy of the threshold. -/
def winv (t : Nat) (w : FutureWatcher) : Prop :=
  w.threshold = t ∧ w.eventSet = decide (t ≤ w.completed.length)

/-- Sample future completed successfully with value 5 (for witnesses). -/
def sampleOk : WMFuture := (set_result (fun _ => false) 5 (initFuture 0)).1

/-- Sample future completed with failure 9 (for witnesses). -/
def sampleErr : WMFuture := (set_exception (fun _ => false) 9 (initFuture 1)).1

/-- Sample pending future with registered callbacks 0, 1, 2 and watchers 10,
11 (for witnesses). -/
def sampleCbs : WMFuture :=
  { initFuture 0 with callbacks := [0, 1, 2], watchers := [10, 11] }

theorem runCallbacks_fst (beh : Nat → Bool) (cs : List Nat) :
    (runCallbacks beh cs).1 = cs := by
  induction cs with
  | nil => rfl
  | cons c cs ih => simp [runCallbacks, ih]

theorem runCallbacks_snd (beh : Nat → Bool) (cs : List Nat) :
    (runCallbacks beh cs).2 = cs.filter beh := by
  induction cs with
  | nil => rfl
  | cons c cs ih =>
    simp only [runCallbacks, List.filter]
    cases hb : beh c <;> simp [hb, ih]

theorem fstep_returned (beh : Nat → Bool) (s : WMFuture) (op : FOp) :
    (fstep beh s op).returned = s.returned := by
  cases op <;>
    simp [fstep, set_result, set_exception, invoke_callbacks, notify_watchers,
      add_watcher, add_callback] <;>
    split <;> rfl

theorem frun_returned (beh : Nat → Bool) (s : WMFuture) (ops : List FOp) :
    (frun beh s ops).returned = s.returned := by
  induction ops generalizing s with
  | nil => rfl
  | cons op ops ih =>
    show (frun beh (fstep beh s op) ops).returned = s.returned
    rw [ih, fstep_returned]

/-- Claim C1: the reference code performs no already-done check in
`_set_result`/`_set_exception`.  At the failing input — `set_result(1)`
followed by `set_result(2)` on the same future, and then a `set_failure`
on top of that — every later completion call returns normally, silently
overwriting the payload, instead of failing with a ProtocolMisuse
programming error as the claim requires. -/
theorem second_set_result_returns_normally :
    (set_result (fun _ => false) 2
        (set_result (fun _ => false) 1 (initFuture 0)).1).1
      = { task_id := 0, done := true, result := some 2, exception := none,
          watchers := [], callbacks := [], returned := none } ∧
    (set_exception (fun _ => false) 9
        (set_result (fun _ => false) 1 (initFuture 0)).1).1
      = { task_id := 0, done := true, result := some 1, exception := some 9,
          watchers := [], callbacks := [], returned := none } := by
  constructor <;> rfl

/-- Claim C2: on a pending future `get_result` blocks; once the future is
completed by `set_result v` it returns exactly the stored object `v`, and
once completed by `set_failure e` it raises exactly `e`. -/
theorem get_result_resolves_completion (beh : Nat → Bool) (v : Value)
    (e : Exc) (s : WMFuture) (hpend : s.done = false)
    (hexc : s.exception = none) :
    get_result s = none ∧
    get_result (set_result beh v s).1 = some (Except.ok (some v)) ∧
    get_result (set_exception beh e s).1 = some (Except.error e) := by
  refine ⟨?_, ?_, ?_⟩ <;>
    simp [get_result, set_result, set_exception, invoke_callbacks,
      notify_watchers, hpend, hexc]

/-- Witness for C2 at the concrete pending future `initFuture 0` with
`v = 5`, `e = 9`. -/
theorem get_result_resolves_completion_witness :
    get_result (initFuture 0) = none ∧
    get_result (set_result (fun _ => false) 5 (initFuture 0)).1
      = some (Except.ok (some 5)) ∧
    get_result (set_exception (fun _ => false) 9 (initFuture 0)).1
      = some (Except.error 9) :=
  get_result_resolves_completion (fun _ => false) 5 9 (initFuture 0) rfl rfl

/-- Claim C9: no operation of the future's lifecycle (construction,
`set_result`, `set_failure`, `get_result`, `add_watcher`, `add_callback`,
`is_done`) ever assigns the `_returned` attribute, so in every reachable
state it is still unassigned and `get_exception`'s first read of it raises
`AttributeError` — it cannot follow the Done-check pattern of
`get_result`. -/
theorem get_exception_reads_unassigned_attribute (beh : Nat → Bool)
    (tid : Nat) (ops : List FOp) :
    (frun beh (initFuture tid) ops).returned = none ∧
    get_exception (frun beh (initFuture tid) ops)
      = GetExcOutcome.attributeError := by
  have h : (frun beh (initFuture tid) ops).returned = none :=
    frun_returned beh (initFuture tid) ops
  exact ⟨h, by simp [get_exception, h]⟩

/-- Claim C10: `_add_callback` on an already-done future invokes the
callback immediately inside `try/except`, so even a raising callback is
caught and logged, the call returns normally, and the callback is not added
to the stored list. -/
theorem add_callback_done_isolated (beh : Nat → Bool) (c : Nat)
    (s : WMFuture) (hd : s.done = true) :
    add_callback beh c s = (s, [c], if beh c then [c] else []) := by
  simp [add_callback, hd]

/-- Witness for C10: already-done future `sampleOk`, callback 3 whose
invocation raises; `add_callback` still returns normally with the exception
logged and the state unchanged. -/
theorem add_callback_done_isolated_witness :
    add_callback (fun _ => true) 3 sampleOk = (sampleOk, [3], [3]) :=
  add_callback_done_isolated (fun _ => true) 3 sampleOk (by decide)

/-- Claim C5: the `all_acquired` scope does NOT release the acquired guards
on the exception exit path.  At the failing input — one future (id 0) whose
guard is initially not held, with the protected block raising exception 7 —
the guard's hold count after the scope exits is still 1, while the normal
path does restore it to 0.  The `@contextmanager` generator lacks a
`try/finally`, so the release loop after the `yield` is skipped when the
block raises. -/
theorem all_acquired_leaks_on_exception :
    (all_acquired [0] (fun _ => 0) (Except.error 7)).2 0 = 1 ∧
    (all_acquired [0] (fun _ => 0) (Except.ok ())).2 0 = 0 := by
  constructor <;> rfl

/-- Claim C3: on an already-done future, `_add_watcher` signals the watcher
synchronously exactly once and leaves the stored watcher set unchanged, and
`_add_callback` invokes the callback synchronously and leaves the stored
callback list unchanged; on a pending future the registrant is stored
instead, and a later completion delivers its notification (it appears in the
signalled/invoked trace of `set_result`), so no registrant misses its
notification. -/
theorem registration_done_vs_pending (beh : Nat → Bool) (w c : Nat)
    (v : Value) (s : WMFuture) :
    (s.done = true →
      add_watcher w s = (s, [w]) ∧
      (add_callback beh c s).1 = s ∧
      (add_callback beh c s).2.1 = [c]) ∧
    (s.done = false →
      (add_watcher w s).2 = [] ∧
      (add_watcher w s).1.watchers = s.watchers ++ [w] ∧
      (add_callback beh c s).2.1 = [] ∧
      (add_callback beh c s).1.callbacks = s.callbacks ++ [c] ∧
      (set_result beh v (add_watcher w s).1).2.signaled
        = s.watchers ++ [w] ∧
      (set_result beh v (add_callback beh c s).1).2.invoked
        = s.callbacks ++ [c]) := by
  constructor
  · intro hd
    refine ⟨?_, ?_, ?_⟩ <;> simp [add_watcher, add_callback, hd]
  · intro hp
    refine ⟨?_, ?_, ?_, ?_, ?_, ?_⟩ <;>
      simp [add_watcher, add_callback, set_result, invoke_callbacks,
        notify_watchers, runCallbacks_fst, hp]

/-- Witness for C3: the done branch at the completed future `sampleOk`
(watcher 7, callback 3), and the pending branch at `initFuture 0`, where the
stored watcher 7 and callback 3 are delivered by a later
`set_result 5`. -/
theorem registration_done_vs_pending_witness :
    (add_watcher 7 sampleOk = (sampleOk, [7]) ∧
      (add_callback (fun _ => false) 3 sampleOk).1 = sampleOk ∧
      (add_callback (fun _ => false) 3 sampleOk).2.1 = [3]) ∧
    ((add_watcher 7 (initFuture 0)).2 = [] ∧
      (add_watcher 7 (initFuture 0)).1.watchers = [7] ∧
      (set_result (fun _ => false) 5 (add_watcher 7 (initFuture 0)).1).2.signaled
        = [7] ∧
      (set_result (fun _ => false) 5
          (add_callback (fun _ => false) 3 (initFuture 0)).1).2.invoked
        = [3]) := by
  have hdone := (registration_done_vs_pending (fun _ => false) 7 3 5
    sampleOk).1 (by decide)
  have hpend := (registration_done_vs_pending (fun _ => false) 7 3 5
    (initFuture 0)).2 rfl
  exact ⟨hdone, hpend.1, hpend.2.1, hpend.2.2.2.2.1, hpend.2.2.2.2.2⟩

/-- One watcher operation preserves the event/threshold invariant, provided
the threshold is at least 1. -/
theorem winv_step (t : Nat) (ht : 1 ≤ t) (w : FutureWatcher) (op : WOp)
    (h : winv t w) : winv t (wstep w op) := by
  obtain ⟨hth, hev⟩ := h
  cases op with
  | signal fid =>
    refine ⟨hth, ?_⟩
    simp only [wstep, FutureWatcher.signal, hth]
    by_cases hle : t ≤ (w.completed ++ [fid]).length
    · simp at hle
      simp [hle]
    · have hlt : ¬ t ≤ w.completed.length := by
        intro hc
        exact hle (hc.trans (by simp))
      simp [hle, hev, hlt]
  | reset =>
    refine ⟨hth, ?_⟩
    simp [wstep, FutureWatcher.reset]
    omega

/-- A sequence of watcher operations preserves the invariant. -/
theorem winv_run (t : Nat) (ht : 1 ≤ t) (w : FutureWatcher)
    (ops : List WOp) (h : winv t w) : winv t (wrun w ops) := by
  induction ops generalizing w with
  | nil => exact h
  | cons op ops ih => exact ih (wstep w op) (winv_step t ht w op h)

/-- Claim C4: for every threshold `t ≥ 1` and every sequence of
`signal`/`reset` operations (covering construction over any set of futures,
in any completion order), the watcher's event is set exactly when the number
of completions recorded since the last reset reaches the threshold; in
particular event-setting is idempotent and the event stays clear below the
threshold. -/
theorem watcher_event_iff_threshold (t : Nat) (ht : 1 ≤ t)
    (ops : List WOp) :
    (wrun (winit t) ops).eventSet
      = decide (t ≤ (wrun (winit t) ops).completed.length) := by
  have hinit : winv t (winit t) := by
    refine ⟨rfl, ?_⟩
    simp [winit]
    omega
  exact (winv_run t ht (winit t) ops hinit).2

/-- Witness for C4 at threshold 2 with signals for futures 3 and 4, a
reset, and one further signal: after two signals the event is set, after the
reset plus one signal it is clear again. -/
theorem watcher_event_iff_threshold_witness :
    (wrun (winit 2) [WOp.signal 3, WOp.signal 4]).eventSet
      = decide (2 ≤ (wrun (winit 2)
          [WOp.signal 3, WOp.signal 4]).completed.length) ∧
    (wrun (winit 2) [WOp.signal 3, WOp.signal 4, WOp.reset,
        WOp.signal 5]).eventSet
      = decide (2 ≤ (wrun (winit 2) [WOp.signal 3, WOp.signal 4, WOp.reset,
          WOp.signal 5]).completed.length) :=
  ⟨watcher_event_iff_threshold 2 (by decide) [WOp.signal 3, WOp.signal 4],
   watcher_event_iff_threshold 2 (by decide)
     [WOp.signal 3, WOp.signal 4, WOp.reset, WOp.signal 5]⟩

/-- Claim C6: completing a future whose callback list contains a raising
callback `c` still invokes every registered callback in registration order,
logs `c`'s exception, and still signals every registered watcher — for both
`set_result` and `set_failure`. -/
theorem callback_exception_isolated (beh : Nat → Bool) (v : Value)
    (e : Exc) (s : WMFuture) (c : Nat) (hc : c ∈ s.callbacks)
    (hr : beh c = true) :
    (set_result beh v s).2.invoked = s.callbacks ∧
    c ∈ (set_result beh v s).2.logged ∧
    (set_result beh v s).2.signaled = s.watchers ∧
    (set_exception beh e s).2.invoked = s.callbacks ∧
    c ∈ (set_exception beh e s).2.logged ∧
    (set_exception beh e s).2.signaled = s.watchers := by
  have hmem : c ∈ s.callbacks.filter beh := List.mem_filter.2 ⟨hc, hr⟩
  refine ⟨?_, ?_, ?_, ?_, ?_, ?_⟩ <;>
    simp [set_result, set_exception, invoke_callbacks, notify_watchers,
      runCallbacks_fst, runCallbacks_snd, hmem]

/-- Witness for C6: future with callbacks `[0, 1, 2]` where callback 1
raises and watchers `[10, 11]`; all three callbacks run, 1 is logged, both
watchers are signalled. -/
theorem callback_exception_isolated_witness :
    (set_result (fun c => c == 1) 7 sampleCbs).2.invoked = [0, 1, 2] ∧
    1 ∈ (set_result (fun c => c == 1) 7 sampleCbs).2.logged ∧
    (set_result (fun c => c == 1) 7 sampleCbs).2.signaled = [10, 11] := by
  have h := callback_exception_isolated (fun c => c == 1) 7 9 sampleCbs
    1 (by decide) (by decide)
  refine ⟨?_, h.2.1, ?_⟩
  · rw [h.1]
    rfl
  · rw [h.2.2.1]
    rfl

theorem acLoop_eq_join (sched : List (List Nat)) :
    ∀ pending : List Nat, pending.Nodup →
      List.Perm sched.flatten pending →
      acLoop pending sched = some sched.flatten := by
  induction sched with
  | nil =>
    intro pending _ hperm
    have hnil : pending = [] := by
      simpa using hperm.symm.eq_nil
    subst hnil
    rfl
  | cons b rest ih =>
    intro pending hnd hperm
    have hj : List.Perm (b ++ rest.flatten) pending := by
      simpa using hperm
    by_cases hpe : pending = []
    · subst hpe
      have hbe : b ++ rest.flatten = [] := hj.eq_nil
      rcases List.append_eq_nil.1 hbe with ⟨hb, hr⟩
      simp [acLoop, List.flatten, hb, hr]
    · have hie : pending.isEmpty = false := by
        cases pending with
        | nil => exact absurd rfl hpe
        | cons x xs => rfl
      have hnd2 : (b ++ rest.flatten).Nodup := hj.nodup_iff.2 hnd
      rcases List.nodup_append.1 hnd2 with ⟨hndb, hndr, hdisj⟩
      have hfb : b.filter (fun x => !b.contains x) = [] := by
        apply List.filter_eq_nil_iff.2
        intro a ha
        simp [ha]
      have hfr : rest.flatten.filter (fun x => !b.contains x) = rest.flatten := by
        apply List.filter_eq_self.2
        intro a ha
        have : a ∉ b := fun hab => hdisj hab ha
        simp [this]
      have hpf : List.Perm rest.flatten
          (pending.filter (fun x => !b.contains x)) := by
        have := (hj.symm).filter (fun x => !b.contains x)
        rw [List.filter_append, hfb, hfr] at this
        simpa using this.symm
      have hndf : (pending.filter (fun x => !b.contains x)).Nodup :=
        hnd.filter _
      have hrec := ih (pending.filter (fun x => !b.contains x)) hndf hpf
      show (if pending.isEmpty then some []
          else (acLoop (pending.filter (fun x => !b.contains x)) rest).map
            (fun out => b ++ out)) = some ((b :: rest).flatten)
      rw [hie, hrec]
      simp

/-- Claim C7: over a de-duplicated collection `S`, with `doneInit` the
already-done snapshot and `sched` any schedule in which each pending member
completes exactly once (its concatenation is a permutation of the pending
members, in any order and batching), `as_completed` yields exactly the
already-done members first — before any blocking wait — followed by the
pending members in completion order, and the whole yielded sequence is a
permutation of `S`: every member exactly once, none omitted, none
repeated. -/
theorem as_completed_yields_each_once (S : List Nat) (doneInit : Nat → Bool)
    (sched : List (List Nat)) (hS : S.Nodup)
    (hperm : List.Perm sched.flatten (S.filter (fun x => !doneInit x))) :
    as_completed S doneInit sched
      = some (S.filter doneInit ++ sched.flatten) ∧
    List.Perm (S.filter doneInit ++ sched.flatten) S := by
  have hndp : (S.filter (fun x => !doneInit x)).Nodup := hS.filter _
  have h1 : acLoop (S.filter (fun x => !doneInit x)) sched
      = some sched.flatten := acLoop_eq_join sched _ hndp hperm
  refine ⟨?_, ?_⟩
  · simp [as_completed, h1]
  · exact (hperm.append_left (S.filter doneInit)).trans
      (List.filter_append_perm doneInit S)

/-- Witness for C7: futures 1..4 with the even ones already done and the odd
ones completing as two singleton batches; the run yields 2, 4 first and then
1, 3 — each member exactly once. -/
theorem as_completed_yields_each_once_witness :
    as_completed [1, 2, 3, 4] (fun x => x % 2 == 0) [[1], [3]]
      = some [2, 4, 1, 3] ∧
    List.Perm [2, 4, 1, 3] [1, 2, 3, 4] := by
  have h := as_completed_yields_each_once [1, 2, 3, 4] (fun x => x % 2 == 0)
    [[1], [3]] (by decide) (by decide)
  exact ⟨h.1, h.2⟩

theorem wait_all_ok_of_no_failure :
    ∀ futures : List WMFuture, (∀ f ∈ futures, f.done = true) →
      (∀ f ∈ futures, f.exception = none) →
      wait_all futures = some (Except.ok (futures.map (fun f => f.result)))
  | [], _, _ => rfl
  | f :: fs, hd, he => by
    have hdf : f.done = true := hd f (by simp)
    have hef : f.exception = none := he f (by simp)
    have ih := wait_all_ok_of_no_failure fs
      (fun g hg => hd g (List.mem_cons_of_mem f hg))
      (fun g hg => he g (List.mem_cons_of_mem f hg))
    simp [wait_all, get_result, hdf, hef, ih]

theorem wait_all_error_of_first_failure :
    ∀ pre : List WMFuture, ∀ f : WMFuture, ∀ post : List WMFuture,
      ∀ e : Exc, (∀ g ∈ pre ++ f :: post, g.done = true) →
      (∀ g ∈ pre, g.exception = none) → f.exception = some e →
      wait_all (pre ++ f :: post) = some (Except.error e)
  | [], f, post, e, hd, _, hex => by
    have hdf : f.done = true := hd f (by simp)
    simp [wait_all, get_result, hdf, hex]
  | g :: pre, f, post, e, hd, hokpre, hex => by
    have hdg : g.done = true := hd g (by simp)
    have heg : g.exception = none := hokpre g (by simp)
    have ih := wait_all_error_of_first_failure pre f post e
      (fun x hx => hd x (List.mem_cons_of_mem g hx))
      (fun x hx => hokpre x (List.mem_cons_of_mem g hx)) hex
    simp [wait_all, get_result, hdg, heg, ih]

/-- Claim C8: with every supplied future done, `wait_all` returns the
stored result objects in the order the futures were supplied when none
holds a failure, and propagates the failure of the earliest failed future
in input order when one does — regardless of completion order, since the
completion order does not appear in the sequential retrieval at all. -/
theorem wait_all_order_and_first_failure (futures : List WMFuture)
    (hdone : ∀ f ∈ futures, f.done = true) :
    ((∀ f ∈ futures, f.exception = none) →
      wait_all futures
        = some (Except.ok (futures.map (fun f => f.result)))) ∧
    (∀ pre f post e, futures = pre ++ f :: post →
      (∀ g ∈ pre, g.exception = none) → f.exception = some e →
      wait_all futures = some (Except.error e)) := by
  constructor
  · exact fun he => wait_all_ok_of_no_failure futures hdone he
  · intro pre f post e heq hpre hex
    subst heq
    exact wait_all_error_of_first_failure pre f post e hdone hpre hex

/-- Witness for C8: two successful futures give both results in supplied
order; a successful future followed by a failed one raises the failure 9. -/
theorem wait_all_order_and_first_failure_witness :
    wait_all [sampleOk, sampleOk] = some (Except.ok [some 5, some 5]) ∧
    wait_all [sampleOk, sampleErr] = some (Except.error 9) := by
  have h1 := (wait_all_order_and_first_failure [sampleOk, sampleOk]
    (by decide)).1 (by decide)
  have h2 := (wait_all_order_and_first_failure [sampleOk, sampleErr]
    (by decide)).2 [sampleOk] sampleErr [] 9 rfl (by decide) (by decide)
  exact ⟨h1, h2⟩

end WemdWM
